import Mathlib

/-!
# Verification of the schema-model walkers and related operations

Shallow embedding of the `sql-schema-describer` table walker
(`src/libs/sql-schema-describer/src/walkers/table.rs`), the write-query
interpreter (`src/query-engine/core/src/interpreter/query_interpreters/write.rs`),
the introspection datamodel calculator
(`src/introspection-engine/connectors/sql-introspection-connector/src/datamodel_calculator.rs`)
and a spec-modelled migration inferrer, together with proofs about them.

Machine integers (`u32` ids) are modelled as `Nat`: ids are positions into
sequences and never overflow in the modelled operations. Fallible indexing
(Rust's panicking `slice[i]`) is modelled with `Option`-returning lookups.
-/

namespace SchemaModel

/-- A table row of a `SqlSchema` (fields accessed by the walker code in
`walkers/table.rs`: `name`, `namespace_id`, `is_partition`). -/
structure Table where
  name : String
  namespace_id : Nat
  is_partition : Bool
deriving DecidableEq, Repr

/-- A column row; the walker code only reads its `name`. -/
structure Column where
  name : String
deriving DecidableEq, Repr

/-- The kind of an index. `is_primary_key` tests for `primaryKey`. -/
inductive IndexType where
  | normal
  | unique
  | fulltext
  | primaryKey
deriving DecidableEq, Repr

/-- An index row: its owning table and its kind. -/
structure Index where
  table_id : Nat
  index_name : String
  tpe : IndexType
deriving DecidableEq, Repr

/-- An index-column row: membership of a column in an index, ordered. -/
structure IndexColumn where
  index_id : Nat
  column_id : Nat
deriving DecidableEq, Repr

/-- A foreign key row: the constrained (owning) table and the referenced table. -/
structure ForeignKey where
  constrained_table : Nat
  referenced_table : Nat
deriving DecidableEq, Repr

/-- A foreign-key-column row: one constrained/referenced column pair of a
foreign key. -/
structure ForeignKeyColumn where
  foreign_key_id : Nat
  constrained_column : Nat
  referenced_column : Nat
deriving DecidableEq, Repr

/-- The arena-based schema: flat sequences of entities, addressed by position.
`table_columns` stores `(owning table id, column)` pairs as in the source. -/
structure SqlSchema where
  namespaces : List String
  tables : List Table
  table_columns : List (Nat × Column)
  indexes : List Index
  index_columns : List IndexColumn
  foreign_keys : List ForeignKey
  foreign_key_columns : List ForeignKeyColumn
deriving DecidableEq, Repr

/-- A walker: a pair of a schema and an id (`Walker<'a, Id>` in the source).
All ids are `Nat` positions, so the walker kinds below are type synonyms. -/
structure Walker (I : Type) where
  schema : SqlSchema
  id : I
deriving DecidableEq, Repr

/-- `Walker::walk`: rebase the walker on another id over the same schema. -/
def Walker.walk {I J : Type} (w : Walker I) (j : J) : Walker J :=
  { schema := w.schema, id := j }

/-- Traverse a table. -/
abbrev TableWalker := Walker Nat

/-- Traverse a column of a table. -/
abbrev TableColumnWalker := Walker Nat

/-- Traverse an index. -/
abbrev IndexWalker := Walker Nat

/-- Traverse a foreign key. -/
abbrev ForeignKeyWalker := Walker Nat

/-- Modelled from the spec: `range_for_key` (in `walkers/mod.rs`, not among the
provided sources) finds the contiguous index range of the children of a parent
inside a child sequence sorted by parent id, by binary range lookup. On a
sorted sequence the partition points are exactly the counts of elements whose
key is below (range start) and not above (range end) the parent key, which is
how the model computes them. -/
def range_for_key {α : Type} (slice : List α) (key : Nat) (extract : α → Nat) : Nat × Nat :=
  (slice.countP (fun x => extract x < key), slice.countP (fun x => extract x ≤ key))

/-- The list of positions covered by a `(start, stop)` range. -/
def rangeList (r : Nat × Nat) : List Nat :=
  List.range' r.1 (r.2 - r.1)

/-- Modelled from the spec: `SqlSchema::table_walkers` (not among the provided
sources) walks every table of the schema in sequence order — tables are
addressed by position into the `tables` sequence. -/
def SqlSchema.table_walkers (s : SqlSchema) : List TableWalker :=
  (List.range s.tables.length).map (fun i => { schema := s, id := i })

/-- Underlying `(table id, column)` row of a column walker; `None` models the
panic of out-of-range indexing. -/
def TableColumnWalker.read? (c : TableColumnWalker) : Option (Nat × Column) :=
  c.schema.table_columns[c.id]?

/-- `TableColumnWalker::name`, `Option`-guarded. -/
def TableColumnWalker.name? (c : TableColumnWalker) : Option String :=
  c.read?.map (fun x => x.2.name)

/-- Underlying `Index` row of an index walker. -/
def IndexWalker.read? (w : IndexWalker) : Option Index :=
  w.schema.indexes[w.id]?

/-- Modelled from the spec: `IndexWalker::is_primary_key` (not among the
provided sources) tests whether the index's kind is the primary-key kind —
the invariant "a table has at most one primary-key index" speaks of this tag. -/
def IndexWalker.is_primary_key (w : IndexWalker) : Bool :=
  (w.read?.map (fun ix => ix.tpe == IndexType.primaryKey)).getD false

/-- Modelled from the spec: `IndexWalker::columns` (not among the provided
sources) traverses the index's columns as the contiguous range of the
`index_columns` sequence sorted by parent index id, in key order. -/
def IndexWalker.columns (w : IndexWalker) : List (Walker Nat) :=
  (rangeList (range_for_key w.schema.index_columns w.id (fun ic => ic.index_id))).map
    (fun idx => w.walk idx)

/-- Underlying `ForeignKey` row of a foreign-key walker. -/
def ForeignKeyWalker.read? (w : ForeignKeyWalker) : Option ForeignKey :=
  w.schema.foreign_keys[w.id]?

/-- `ForeignKeyWalker::referenced_table().id`, `Option`-guarded. -/
def ForeignKeyWalker.referenced_table_id? (w : ForeignKeyWalker) : Option Nat :=
  w.read?.map (fun fk => fk.referenced_table)

/-- Modelled from the spec: `ForeignKeyWalker::columns` (not among the provided
sources) yields the foreign key's column pairs as the contiguous range of the
`foreign_key_columns` sequence sorted by parent foreign key id. -/
def ForeignKeyWalker.columns (w : ForeignKeyWalker) : List ForeignKeyColumn :=
  (rangeList (range_for_key w.schema.foreign_key_columns w.id (fun fc => fc.foreign_key_id))).filterMap
    (fun idx => w.schema.foreign_key_columns[idx]?)

/-- `TableWalker::table`: the underlying `Table` row (`None` models the panic
of out-of-range indexing). -/
def TableWalker.table? (t : TableWalker) : Option Table :=
  t.schema.tables[t.id]?

/-- `TableWalker::columns_range` (private helper). -/
def TableWalker.columns_range (t : TableWalker) : Nat × Nat :=
  range_for_key t.schema.table_columns t.id (fun x => x.1)

/-- `TableWalker::columns`: traverse the table's columns. -/
def TableWalker.columns (t : TableWalker) : List TableColumnWalker :=
  (rangeList t.columns_range).map (fun idx => t.walk idx)

/-- `TableWalker::column`: get a column in the table, by name. -/
def TableWalker.column (t : TableWalker) (column_name : String) : Option TableColumnWalker :=
  t.columns.find? (fun column => column.name? == some column_name)

/-- `TableWalker::column_case_insensitive`: get a column in the table, by name
(the source body is identical to `column`). -/
def TableWalker.column_case_insensitive (t : TableWalker) (column_name : String) :
    Option TableColumnWalker :=
  t.columns.find? (fun column => column.name? == some column_name)

/-- `TableWalker::foreign_keys_range` (private helper). -/
def TableWalker.foreign_keys_range (t : TableWalker) : Nat × Nat :=
  range_for_key t.schema.foreign_keys t.id (fun fk => fk.constrained_table)

/-- `TableWalker::foreign_key_count`: the number of foreign key constraints on
the table (length of the range, no walkers built). -/
def TableWalker.foreign_key_count (t : TableWalker) : Nat :=
  (rangeList t.foreign_keys_range).length

/-- `TableWalker::indexes`: traverse the indexes on the table. -/
def TableWalker.indexes (t : TableWalker) : List IndexWalker :=
  (rangeList (range_for_key t.schema.indexes t.id (fun idx => idx.table_id))).map
    (fun idx => t.walk idx)

/-- `TableWalker::foreign_keys`: traverse the foreign keys on the table. -/
def TableWalker.foreign_keys (t : TableWalker) : List ForeignKeyWalker :=
  (rangeList t.foreign_keys_range).map (fun i => t.walk i)

/-- `TableWalker::referencing_foreign_keys`: traverse foreign keys from other
tables, referencing the current table. -/
def TableWalker.referencing_foreign_keys (t : TableWalker) : List ForeignKeyWalker :=
  (((t.schema.table_walkers.filter (fun t2 => t2.id != t.id)).flatMap
      (fun t2 => TableWalker.foreign_keys t2)).filter
    (fun fk => ForeignKeyWalker.referenced_table_id? fk == some t.id))

/-- `TableWalker::name`, `Option`-guarded. -/
def TableWalker.name? (t : TableWalker) : Option String :=
  t.table?.map (fun tb => tb.name)

/-- `TableWalker::foreign_key_for_column`: try to traverse a foreign key for a
single column (`cols.len() == 1 && cols[0].constrained_column == column`). -/
def TableWalker.foreign_key_for_column (t : TableWalker) (column : Nat) :
    Option ForeignKeyWalker :=
  t.foreign_keys.find? (fun fk =>
    match ForeignKeyWalker.columns fk with
    | [col] => col.constrained_column == column
    | _ => false)

/-- `TableWalker::namespace`: the namespace the table belongs to, if defined.
The outer `Option` guards the table lookup; the inner one is the source's
`Option<&str>` from the safe `namespaces.get`. -/
def TableWalker.namespace? (t : TableWalker) : Option (Option String) :=
  t.table?.map (fun tb => t.schema.namespaces[tb.namespace_id]?)

/-- `TableWalker::namespace_id`, `Option`-guarded. -/
def TableWalker.namespace_id? (t : TableWalker) : Option Nat :=
  t.table?.map (fun tb => tb.namespace_id)

/-- `TableWalker::primary_key`: traverse to the primary key of the table. -/
def TableWalker.primary_key (t : TableWalker) : Option IndexWalker :=
  t.indexes.find? (fun idx => IndexWalker.is_primary_key idx)

/-- `TableWalker::primary_key_columns`. -/
def TableWalker.primary_key_columns (t : TableWalker) : Option (List (Walker Nat)) :=
  t.primary_key.map (fun pk => IndexWalker.columns pk)

/-- `TableWalker::primary_key_columns_count`: how many columns are in the
primary key? Returns 0 in the absence of a pk. -/
def TableWalker.primary_key_columns_count (t : TableWalker) : Nat :=
  (t.primary_key_columns.map (fun cols => cols.length)).getD 0

/-- `TableWalker::is_partition`, `Option`-guarded. -/
def TableWalker.is_partition? (t : TableWalker) : Option Bool :=
  t.table?.map (fun tb => tb.is_partition)

/-- The child rows addressed by a `range_for_key` range. -/
def sliceData {α : Type} (l : List α) (key : Nat) (extract : α → Nat) : List α :=
  (rangeList (range_for_key l key extract)).filterMap (fun i => l[i]?)

/-- The spec's arena invariant: a child sequence is sorted by its parent key. -/
def SortedByKey {α : Type} (l : List α) (extract : α → Nat) : Prop :=
  l.Pairwise (fun x y => extract x ≤ extract y)

instance {α : Type} (l : List α) (extract : α → Nat) : Decidable (SortedByKey l extract) :=
  inferInstanceAs (Decidable (l.Pairwise _))

/-- The `(table id, column)` rows reached through `columns()`. -/
def TableWalker.columnsData (t : TableWalker) : List (Nat × Column) :=
  t.columns.filterMap TableColumnWalker.read?

/-- The `Index` rows reached through `indexes()`. -/
def TableWalker.indexesData (t : TableWalker) : List Index :=
  t.indexes.filterMap IndexWalker.read?

/-- The `ForeignKey` rows reached through `foreign_keys()`. -/
def TableWalker.foreignKeysData (t : TableWalker) : List ForeignKey :=
  t.foreign_keys.filterMap ForeignKeyWalker.read?

/-- The `ForeignKey` rows reached through `referencing_foreign_keys()`. -/
def TableWalker.referencingForeignKeysData (t : TableWalker) : List ForeignKey :=
  t.referencing_foreign_keys.filterMap ForeignKeyWalker.read?

/-- Example schema: a single table with a primary key and a self-referencing
foreign key (the shape exercised by the partition-table introspection test,
where `blocks` references `blocks`). -/
def exSelf : SqlSchema :=
  { namespaces := ["public"]
    tables := [{ name := "blocks", namespace_id := 0, is_partition := false }]
    table_columns := [(0, { name := "id" }), (0, { name := "src" })]
    indexes := [{ table_id := 0, index_name := "blocks_pkey", tpe := .primaryKey }]
    index_columns := [{ index_id := 0, column_id := 0 }]
    foreign_keys := [{ constrained_table := 0, referenced_table := 0 }]
    foreign_key_columns := [{ foreign_key_id := 0, constrained_column := 1, referenced_column := 0 }] }

/-- Walker of the only table of `exSelf`. -/
def wSelf : TableWalker := { schema := exSelf, id := 0 }

/-- Example schema: two tables, with a foreign key from `posts` to `users`. -/
def exTwo : SqlSchema :=
  { namespaces := []
    tables := [{ name := "users", namespace_id := 0, is_partition := false },
               { name := "posts", namespace_id := 0, is_partition := false }]
    table_columns := [(0, { name := "id" }), (1, { name := "id" }), (1, { name := "user_id" })]
    indexes := []
    index_columns := []
    foreign_keys := [{ constrained_table := 1, referenced_table := 0 }]
    foreign_key_columns := [{ foreign_key_id := 0, constrained_column := 2, referenced_column := 0 }] }

/-- Walker of table `users` of `exTwo`. -/
def wUsers : TableWalker := { schema := exTwo, id := 0 }

/-- Walker of table `posts` of `exTwo`. -/
def wPosts : TableWalker := { schema := exTwo, id := 1 }

end SchemaModel

namespace WriteInterp

/-- The write-query AST
(`src/query-engine/core/src/interpreter/query_interpreters/write.rs`): the
payloads the interpreter forwards to the connector. Models, filters and
arguments are opaque to the dispatch logic and modelled as atoms. -/
structure CreateRecord where
  model : String
  non_list_args : Nat
  list_args : Nat
deriving DecidableEq, Repr

structure UpdateRecord where
  model : String
  where_ : Nat
  non_list_args : Nat
  list_args : Nat
deriving DecidableEq, Repr

structure DeleteRecord where
  model : String
  where_ : Nat
deriving DecidableEq, Repr

structure UpdateManyRecords where
  model : String
  filter : Nat
  non_list_args : Nat
  list_args : Nat
deriving DecidableEq, Repr

structure DeleteManyRecords where
  model : String
  filter : Nat
deriving DecidableEq, Repr

structure ConnectRecords where
  model : String
deriving DecidableEq, Repr

structure DisconnectRecords where
  model : String
deriving DecidableEq, Repr

structure SetRecords where
  model : String
deriving DecidableEq, Repr

structure ResetData where
  model : String
deriving DecidableEq, Repr

/-- `WriteQuery`: the nine write-query kinds dispatched by `execute`. -/
inductive WriteQuery where
  | CreateRecord (q : CreateRecord)
  | UpdateRecord (q : UpdateRecord)
  | DeleteRecord (q : DeleteRecord)
  | UpdateManyRecords (q : UpdateManyRecords)
  | DeleteManyRecords (q : DeleteManyRecords)
  | ConnectRecords (q : ConnectRecords)
  | DisconnectRecords (q : DisconnectRecords)
  | SetRecords (q : SetRecords)
  | ResetData (q : ResetData)
deriving DecidableEq, Repr

/-- One invocation of a `TransactionLike` method, with the arguments the
interpreter passes (`WriteArgs::new(non_list, list)` is modelled as the pair). -/
inductive TxOp where
  | create_record (model : String) (non_list_args : Nat) (list_args : Nat)
  | update_records (model : String) (filter : Nat) (non_list_args : Nat) (list_args : Nat)
  | delete_records (model : String) (filter : Nat)
deriving DecidableEq, Repr

/-- `QueryResult`: the interpreter returns an id or an affected-row count. -/
inductive QueryResult where
  | Id (n : Nat)
  | Count (n : Nat)
deriving DecidableEq, Repr

/-- Outcome of `execute`, together with the transaction operations invoked, in
order: a normal result, a propagated connector error (`?`), or a panic
(`unimplemented!()`). -/
inductive ExecOutcome where
  | ok (r : QueryResult) (ops : List TxOp)
  | err (e : String) (ops : List TxOp)
  | panicked (ops : List TxOp)
deriving DecidableEq, Repr

/-- The operations `execute` has invoked on the transaction by the time it
returns. -/
def ExecOutcome.ops : ExecOutcome → List TxOp
  | .ok _ ops => ops
  | .err _ ops => ops
  | .panicked ops => ops

/-- The connector's behaviour: the response (or error) to each transaction
operation. -/
def Tx := TxOp → Except String Nat

/-- `execute` (write.rs): dispatch a write query to the connector. The four
stub arms (`connect`, `disconnect`, `set`, `reset`) hit `unimplemented!()`
before touching the transaction. -/
def execute (tx : Tx) : WriteQuery → ExecOutcome
  | .CreateRecord q =>
    let op := TxOp.create_record q.model q.non_list_args q.list_args
    match tx op with
    | .ok res => .ok (.Id res) [op]
    | .error e => .err e [op]
  | .UpdateRecord q =>
    let op := TxOp.update_records q.model q.where_ q.non_list_args q.list_args
    match tx op with
    | .ok res => .ok (.Count res) [op]
    | .error e => .err e [op]
  | .DeleteRecord q =>
    let op := TxOp.delete_records q.model q.where_
    match tx op with
    | .ok res => .ok (.Count res) [op]
    | .error e => .err e [op]
  | .UpdateManyRecords q =>
    let op := TxOp.update_records q.model q.filter q.non_list_args q.list_args
    match tx op with
    | .ok res => .ok (.Count res) [op]
    | .error e => .err e [op]
  | .DeleteManyRecords q =>
    let op := TxOp.delete_records q.model q.filter
    match tx op with
    | .ok res => .ok (.Count res) [op]
    | .error e => .err e [op]
  | .ConnectRecords _ => .panicked []
  | .DisconnectRecords _ => .panicked []
  | .SetRecords _ => .panicked []
  | .ResetData _ => .panicked []

/-- The four write-query kinds whose interpreter arm is the
`unimplemented!()` placeholder. -/
def isStub : WriteQuery → Bool
  | .ConnectRecords _ => true
  | .DisconnectRecords _ => true
  | .SetRecords _ => true
  | .ResetData _ => true
  | _ => false

/-- The single connector operation a non-stub query kind dispatches to. -/
def dispatchOp : WriteQuery → Option TxOp
  | .CreateRecord q => some (.create_record q.model q.non_list_args q.list_args)
  | .UpdateRecord q => some (.update_records q.model q.where_ q.non_list_args q.list_args)
  | .DeleteRecord q => some (.delete_records q.model q.where_)
  | .UpdateManyRecords q => some (.update_records q.model q.filter q.non_list_args q.list_args)
  | .DeleteManyRecords q => some (.delete_records q.model q.filter)
  | _ => none

end WriteInterp

namespace Introspection

/-- `Version` (introspection connector). -/
inductive Version where
  | NonPrisma
  | Prisma1
  | Prisma11
  | Prisma2
deriving DecidableEq, Repr

/-- A generated introspection warning; the calculator only inspects `code`. -/
structure Warning where
  code : Nat
  message : String
deriving DecidableEq, Repr

/-- `DatamodelCalculatorContext`: the calculator reads its recorded version.
The construction from `IntrospectionContext` and schema happens in `context.rs`
(not among the provided sources), so the context is taken as given. -/
structure CalcContext where
  version : Version
deriving DecidableEq, Repr

/-- `IntrospectionResult`. -/
structure IntrospectionResult where
  data_model : String
  is_empty : Bool
  version : Version
  warnings : List Warning
deriving DecidableEq, Repr

/-- `calculate` (datamodel_calculator.rs): render the PSL string, generate
warnings, and downgrade the version to `NonPrisma` when any warning has a code
other than 5 and 6 (the Prisma 1 default-reintrospection codes). The external
collaborators `rendering::to_psl_string` and `warnings::generate` are passed in
as functions. -/
def calculate (to_psl_string : CalcContext → Except String (String × Bool))
    (generate : CalcContext → List Warning) (ctx : CalcContext) :
    Except String IntrospectionResult :=
  match to_psl_string ctx with
  | .error e => .error e
  | .ok (schema_string, is_empty) =>
    let warnings := generate ctx
    let version :=
      if warnings.any (fun w => !([5, 6].contains w.code)) then Version.NonPrisma
      else ctx.version
    .ok { data_model := schema_string, is_empty := is_empty,
          version := version, warnings := warnings }

end Introspection

namespace Inferrer

open SchemaModel

/-- An abstract DDL intent, at the granularity the spec's inferrer contract
describes for tables and their columns. -/
inductive MigrationStep where
  | createTable (name : String)
  | dropTable (name : String)
  | addColumn (table : String) (column : String)
  | dropColumn (table : String) (column : String)
deriving DecidableEq, Repr

/-- Names of the tables of a schema, in declaration order. -/
def tableNames (s : SqlSchema) : List String :=
  s.tables.map (fun t => t.name)

/-- Names of the columns of the table named `t` in `s`, in sequence order. -/
def columnNames (s : SqlSchema) (t : String) : List String :=
  (s.table_columns.filter (fun xc =>
      match s.tables[xc.1]? with
      | some tb => tb.name == t
      | none => false)).map (fun xc => xc.2.name)

/-- Modelled from the spec: `infer(current, desired)` (the Inferrer is not
among the provided sources) performs a structural diff with name-based
identity matching. Entities present only in `desired` become create steps in
dependency order (tables before their columns), preserving the desired
schema's declaration order; entities present only in `current` become drop
steps in reverse dependency order (columns before their table), preserving
the current schema's declaration order. -/
def infer (current desired : SqlSchema) : List MigrationStep :=
  let currentNames := tableNames current
  let desiredNames := tableNames desired
  let createdTables := desiredNames.filter (fun n => !(currentNames.contains n))
  let droppedTables := currentNames.filter (fun n => !(desiredNames.contains n))
  let createTableSteps := createdTables.map MigrationStep.createTable
  let createColumnSteps := createdTables.flatMap (fun n =>
    (columnNames desired n).map (fun c => MigrationStep.addColumn n c))
  let sharedNew := desiredNames.filter (fun n => currentNames.contains n)
  let addColumnSteps := sharedNew.flatMap (fun n =>
    ((columnNames desired n).filter (fun c => !((columnNames current n).contains c))).map
      (fun c => MigrationStep.addColumn n c))
  let dropColumnSteps := currentNames.flatMap (fun n =>
    ((columnNames current n).filter (fun c =>
        desiredNames.contains n && !((columnNames desired n).contains c))).map
      (fun c => MigrationStep.dropColumn n c))
  let dropTableSteps := droppedTables.map MigrationStep.dropTable
  dropColumnSteps ++ dropTableSteps ++ createTableSteps ++ createColumnSteps ++ addColumnSteps

end Inferrer

namespace SchemaModel

theorem range_start_le_stop {α : Type} (l : List α) (k : Nat) (f : α → Nat) :
    (range_for_key l k f).1 ≤ (range_for_key l k f).2 := by
  apply List.countP_mono_left
  intro x _ hx
  simp only [decide_eq_true_eq] at hx ⊢
  omega

theorem range_stop_le_length {α : Type} (l : List α) (k : Nat) (f : α → Nat) :
    (range_for_key l k f).2 ≤ l.length :=
  List.countP_le_length _

theorem mem_rangeList_lt {α : Type} {l : List α} {k : Nat} {f : α → Nat} {i : Nat}
    (h : i ∈ rangeList (range_for_key l k f)) : i < l.length := by
  have hm := List.mem_range'_1.mp h
  have h1 := range_start_le_stop l k f
  have h2 := range_stop_le_length l k f
  omega

theorem filterMap_range_get {α : Type} (l : List α) :
    ∀ (m a : Nat), a + m ≤ l.length →
      (List.range' a m).filterMap (fun i => l[i]?) = (l.drop a).take m := by
  intro m
  induction m with
  | zero => intro a _; simp
  | succ m ih =>
    intro a h
    have ha : a < l.length := by omega
    rw [List.range'_succ a m 1]
    rw [List.filterMap_cons]
    simp only [List.getElem?_eq_getElem ha]
    rw [ih (a + 1) (by omega)]
    rw [List.drop_eq_getElem_cons ha]
    rfl

theorem sorted_drop_take_filter {α : Type} (f : α → Nat) (k : Nat) :
    ∀ l : List α, l.Pairwise (fun x y => f x ≤ f y) →
      (l.drop (l.countP (fun x => decide (f x < k)))).take
          (l.countP (fun x => decide (f x ≤ k)) - l.countP (fun x => decide (f x < k)))
        = l.filter (fun x => f x == k)
  | [], _ => rfl
  | x :: xs, h => by
    have hx : ∀ y ∈ xs, f x ≤ f y := (List.pairwise_cons.mp h).1
    have hxs := (List.pairwise_cons.mp h).2
    have ih := sorted_drop_take_filter f k xs hxs
    rcases Nat.lt_trichotomy (f x) k with hlt | heq | hgt
    · have hle : f x ≤ k := Nat.le_of_lt hlt
      simp only [List.countP_cons, hlt, hle]
      have hne : (f x == k) = false := by simp only [beq_eq_false_iff_ne, ne_eq]; omega
      rw [List.filter_cons_of_neg (by simp only [hne]; exact Bool.false_ne_true)]
      simp only [decide_eq_true_eq, if_pos hlt, if_pos hle]
      simpa using ih
    · have hz : xs.countP (fun y => decide (f y < k)) = 0 := by
        apply List.countP_eq_zero.mpr
        intro y hy
        simp only [decide_eq_true_eq]
        have := hx y hy
        omega
      have hz2 : (x :: xs).countP (fun y => decide (f y < k)) = 0 := by
        simp [List.countP_cons, hz]; omega
      rw [hz2]
      simp only [List.drop_zero, Nat.sub_zero]
      have hle : (x :: xs).countP (fun y => decide (f y ≤ k)) =
          xs.countP (fun y => decide (f y ≤ k)) + 1 := by
        simp [List.countP_cons, heq]
      rw [hle]
      rw [List.take_succ_cons]
      rw [List.filter_cons_of_pos (by simp [heq])]
      rw [hz] at ih
      simpa using ih
    · have hz : (x :: xs).countP (fun y => decide (f y ≤ k)) = 0 := by
        apply List.countP_eq_zero.mpr
        intro y hy
        simp only [decide_eq_true_eq]
        rcases List.mem_cons.mp hy with rfl | hy2
        · omega
        · have := hx y hy2; omega
      have hz1 : (x :: xs).countP (fun y => decide (f y < k)) = 0 := by
        apply List.countP_eq_zero.mpr
        intro y hy
        simp only [decide_eq_true_eq]
        rcases List.mem_cons.mp hy with rfl | hy2
        · omega
        · have := hx y hy2; omega
      rw [hz, hz1]
      simp only [Nat.sub_zero, List.take_zero]
      symm
      apply List.filter_eq_nil_iff.mpr
      intro y hy
      simp only [beq_eq_false_iff_ne, ne_eq, beq_iff_eq]
      rcases List.mem_cons.mp hy with rfl | hy2
      · omega
      · have := hx y hy2; omega

theorem sliceData_eq_filter {α : Type} (l : List α) (k : Nat) (f : α → Nat)
    (h : SortedByKey l f) : sliceData l k f = l.filter (fun x => f x == k) := by
  have h1 := range_start_le_stop l k f
  have h2 := range_stop_le_length l k f
  unfold sliceData rangeList
  rw [filterMap_range_get l _ _ (by omega)]
  exact sorted_drop_take_filter f k l h

theorem sliceData_length {α : Type} (l : List α) (k : Nat) (f : α → Nat) :
    (sliceData l k f).length = (range_for_key l k f).2 - (range_for_key l k f).1 := by
  have h1 := range_start_le_stop l k f
  have h2 := range_stop_le_length l k f
  unfold sliceData rangeList
  rw [filterMap_range_get l _ _ (by omega)]
  rw [List.length_take, List.length_drop]
  omega

theorem sorted_filter_split {α : Type} (f : α → Nat) (n : Nat) (Q : α → Bool) :
    ∀ l : List α, l.Pairwise (fun x y => f x ≤ f y) →
      l.filter (fun x => decide (f x < n) && Q x) ++ l.filter (fun x => (f x == n) && Q x)
        = l.filter (fun x => decide (f x < n + 1) && Q x)
  | [], _ => rfl
  | x :: xs, h => by
    have hx : ∀ y ∈ xs, f x ≤ f y := (List.pairwise_cons.mp h).1
    have hxs := (List.pairwise_cons.mp h).2
    have ih := sorted_filter_split f n Q xs hxs
    rcases Nat.lt_trichotomy (f x) n with hlt | heq | hgt
    · have h1 : (decide (f x < n) && Q x) = Q x := by simp [hlt]
      have h2 : ((f x == n) && Q x) = false := by
        have : (f x == n) = false := by simp only [beq_eq_false_iff_ne, ne_eq]; omega
        simp [this]
      have h3 : (decide (f x < n + 1) && Q x) = Q x := by simp; omega
      cases hq : Q x with
      | true =>
        rw [List.filter_cons_of_pos (by rw [h1, hq]),
            List.filter_cons_of_neg (by rw [h2]; exact Bool.false_ne_true),
            List.filter_cons_of_pos (by rw [h3, hq])]
        rw [List.cons_append, ih]
      | false =>
        rw [List.filter_cons_of_neg (by rw [h1, hq]; exact Bool.false_ne_true),
            List.filter_cons_of_neg (by rw [h2]; exact Bool.false_ne_true),
            List.filter_cons_of_neg (by rw [h3, hq]; exact Bool.false_ne_true)]
        exact ih
    · have hz : xs.filter (fun y => decide (f y < n) && Q y) = [] := by
        apply List.filter_eq_nil_iff.mpr
        intro y hy
        have := hx y hy
        simp only [Bool.and_eq_true, decide_eq_true_eq, not_and]
        intro hc; omega
      have hz0 : (x :: xs).filter (fun y => decide (f y < n) && Q y) = [] := by
        rw [List.filter_cons_of_neg (by simp; omega)]
        exact hz
      rw [hz0]
      rw [hz] at ih
      simp only [List.nil_append] at ih ⊢
      have e2 : ((f x == n) && Q x) = Q x := by simp [heq]
      have e3 : (decide (f x < n + 1) && Q x) = Q x := by simp; omega
      cases hq : Q x with
      | true =>
        rw [List.filter_cons_of_pos (by rw [e2, hq]),
            List.filter_cons_of_pos (by rw [e3, hq])]
        rw [ih]
      | false =>
        rw [List.filter_cons_of_neg (by rw [e2, hq]; exact Bool.false_ne_true),
            List.filter_cons_of_neg (by rw [e3, hq]; exact Bool.false_ne_true)]
        exact ih
    · have key : ∀ y ∈ x :: xs, n < f y := by
        intro y hy
        rcases List.mem_cons.mp hy with rfl | hy2
        · exact hgt
        · have := hx y hy2; omega
      have e1 : (x :: xs).filter (fun y => decide (f y < n) && Q y) = [] := by
        apply List.filter_eq_nil_iff.mpr
        intro y hy
        have := key y hy
        simp only [Bool.and_eq_true, decide_eq_true_eq, not_and]
        intro hc; omega
      have e2 : (x :: xs).filter (fun y => (f y == n) && Q y) = [] := by
        apply List.filter_eq_nil_iff.mpr
        intro y hy
        have := key y hy
        simp only [Bool.and_eq_true, beq_iff_eq, not_and]
        intro hc; omega
      have e3 : (x :: xs).filter (fun y => decide (f y < n + 1) && Q y) = [] := by
        apply List.filter_eq_nil_iff.mpr
        intro y hy
        have := key y hy
        simp only [Bool.and_eq_true, decide_eq_true_eq, not_and]
        intro hc; omega
      rw [e1, e2, e3]
      rfl

theorem flatMap_range_filter {α : Type} (f : α → Nat) (i : Nat) :
    ∀ (n : Nat) (l : List α), l.Pairwise (fun x y => f x ≤ f y) →
      ((List.range n).filter (fun j => j != i)).flatMap
          (fun j => l.filter (fun x => f x == j))
        = l.filter (fun x => decide (f x < n) && (f x != i))
  | 0, l, _ => by
    simp only [List.range_zero, List.filter_nil, List.flatMap_nil]
    symm
    apply List.filter_eq_nil_iff.mpr
    intro y _
    simp
  | n + 1, l, h => by
    have ih := flatMap_range_filter f i n l h
    rw [List.range_succ n, List.filter_append, List.flatMap_append, ih]
    by_cases hni : n = i
    · subst hni
      have : [n].filter (fun j => j != n) = [] := by simp
      rw [this, List.flatMap_nil, List.append_nil]
      apply List.filter_congr
      intro x _
      rcases Nat.lt_trichotomy (f x) n with h1 | h1 | h1
      · have d1 : decide (f x < n) = true := by simp [h1]
        have d2 : decide (f x < n + 1) = true := by simp only [decide_eq_true_eq]; omega
        rw [d1, d2]
      · have d : (f x != n) = false := by simp [bne, h1]
        rw [d, Bool.and_false, Bool.and_false]
      · have d1 : decide (f x < n) = false := by simp only [decide_eq_false_iff_not]; omega
        have d2 : decide (f x < n + 1) = false := by simp only [decide_eq_false_iff_not]; omega
        rw [d1, d2]
    · have : [n].filter (fun j => j != i) = [n] := by simp [bne, hni]
      rw [this]
      simp only [List.flatMap_cons, List.flatMap_nil, List.append_nil]
      have e : l.filter (fun x => f x == n) = l.filter (fun x => (f x == n) && (f x != i)) := by
        apply List.filter_congr
        intro x _
        rcases Nat.decEq (f x) n with hd | hd
        · simp [hd, bne]
        · subst hd
          simp only [beq_self_eq_true, Bool.true_and, bne]
          have : (f x == i) = false := by simp only [beq_eq_false_iff_ne, ne_eq]; omega
          rw [this]
          rfl
      rw [e]
      exact sorted_filter_split f n (fun x => f x != i) l h

theorem find?_eq_some_split {α : Type} (p : α → Bool) :
    ∀ (l : List α) (a : α), l.find? p = some a →
      ∃ l1 l2, l = l1 ++ a :: l2 ∧ p a = true ∧ ∀ x ∈ l1, p x = false
  | [], a, h => by simp at h
  | x :: xs, a, h => by
    cases hx : p x with
    | true =>
      rw [List.find?_cons_of_pos _ hx] at h
      obtain rfl : x = a := by injection h
      exact ⟨[], xs, rfl, hx, by intro y hy; simp at hy⟩
    | false =>
      rw [List.find?_cons_of_neg _ (by rw [hx]; exact Bool.false_ne_true)] at h
      obtain ⟨l1, l2, he, hp, hall⟩ := find?_eq_some_split p xs a h
      refine ⟨x :: l1, l2, by rw [he]; rfl, hp, ?_⟩
      intro y hy
      rcases List.mem_cons.mp hy with rfl | hy2
      · exact hx
      · exact hall y hy2

theorem columnsData_eq_sliceData (t : TableWalker) :
    t.columnsData = sliceData t.schema.table_columns t.id (fun x => x.1) := by
  unfold TableWalker.columnsData TableWalker.columns sliceData TableWalker.columns_range
  rw [List.filterMap_map]
  rfl

theorem indexesData_eq_sliceData (t : TableWalker) :
    t.indexesData = sliceData t.schema.indexes t.id (fun ix => ix.table_id) := by
  unfold TableWalker.indexesData TableWalker.indexes sliceData
  rw [List.filterMap_map]
  rfl

theorem foreignKeysData_eq_sliceData (t : TableWalker) :
    t.foreignKeysData = sliceData t.schema.foreign_keys t.id (fun fk => fk.constrained_table) := by
  unfold TableWalker.foreignKeysData TableWalker.foreign_keys sliceData TableWalker.foreign_keys_range
  rw [List.filterMap_map]
  rfl

theorem fkw_columns_eq_sliceData (w : ForeignKeyWalker) :
    ForeignKeyWalker.columns w =
      sliceData w.schema.foreign_key_columns w.id (fun fc => fc.foreign_key_id) := rfl

/-- C3: for every table walker `t` and string `s`, `column(t, s)` is `some c`
exactly when the table's column traversal contains a column named `s`, `c`
being the first such column in the table's column order, and is `none` when no
column is named `s`; being `Option`-valued, it fails in no other way. -/
theorem column_finds_first_by_name (t : TableWalker) (s : String) :
    ((t.column s).isSome ↔ ∃ c ∈ t.columns, TableColumnWalker.name? c = some s) ∧
    (∀ c, t.column s = some c →
      TableColumnWalker.name? c = some s ∧
      ∃ pre post, t.columns = pre ++ c :: post ∧
        ∀ d ∈ pre, TableColumnWalker.name? d ≠ some s) := by
  constructor
  · rw [TableWalker.column, List.find?_isSome]
    constructor
    · rintro ⟨x, hx, hp⟩
      refine ⟨x, hx, ?_⟩
      simpa using hp
    · rintro ⟨x, hx, hp⟩
      refine ⟨x, hx, ?_⟩
      simp [hp]
  · intro c hc
    obtain ⟨pre, post, he, hpa, hall⟩ := find?_eq_some_split _ _ _ hc
    refine ⟨by simpa using hpa, pre, post, he, ?_⟩
    intro d hd
    have := hall d hd
    simpa using this

/-- C3 witness: the specification instantiated at the `blocks` table of
`exSelf` and the column name `src`. -/
theorem column_finds_first_by_name_witness :
    ((TableWalker.column wSelf "src").isSome ↔
      ∃ c ∈ TableWalker.columns wSelf, TableColumnWalker.name? c = some "src") :=
  (column_finds_first_by_name wSelf "src").1

/-- C8: `column_case_insensitive` returns exactly what `column` returns for
every table walker and every string — its body compares names with plain
equality — so a column whose name differs from the query only in letter case
is not found: `exSelf` has a column named `src`, yet looking up `SRC` yields
`none`. -/
theorem column_case_insensitive_is_case_sensitive :
    (∀ (t : TableWalker) (s : String), t.column_case_insensitive s = t.column s) ∧
    TableWalker.column_case_insensitive wSelf "SRC" = none ∧
    TableWalker.column wSelf "src" =
      some { schema := exSelf, id := 1 } := by
  refine ⟨fun t s => rfl, by decide, by decide⟩

/-- C8 witness: the equivalence instantiated at the `blocks` table of `exSelf`
and the name `SRC`. -/
theorem column_case_insensitive_is_case_sensitive_witness :
    TableWalker.column_case_insensitive wSelf "SRC" = TableWalker.column wSelf "SRC" :=
  column_case_insensitive_is_case_sensitive.1 wSelf "SRC"

theorem mem_columns_read_isSome {t : TableWalker} {c : TableColumnWalker}
    (hc : c ∈ t.columns) : (TableColumnWalker.read? c).isSome = true := by
  rw [TableWalker.columns, TableWalker.columns_range] at hc
  obtain ⟨idx, hidx, rfl⟩ := List.mem_map.mp hc
  have hlt := mem_rangeList_lt hidx
  rw [TableColumnWalker.read?]
  simp only [Walker.walk]
  rw [List.getElem?_eq_getElem hlt]
  rfl

theorem mem_indexes_read_isSome {t : TableWalker} {ix : IndexWalker}
    (hix : ix ∈ t.indexes) : (IndexWalker.read? ix).isSome = true := by
  rw [TableWalker.indexes] at hix
  obtain ⟨idx, hidx, rfl⟩ := List.mem_map.mp hix
  have hlt := mem_rangeList_lt hidx
  rw [IndexWalker.read?]
  simp only [Walker.walk]
  rw [List.getElem?_eq_getElem hlt]
  rfl

theorem mem_foreign_keys_read_isSome {t : TableWalker} {fk : ForeignKeyWalker}
    (hfk : fk ∈ t.foreign_keys) : (ForeignKeyWalker.read? fk).isSome = true := by
  rw [TableWalker.foreign_keys, TableWalker.foreign_keys_range] at hfk
  obtain ⟨idx, hidx, rfl⟩ := List.mem_map.mp hfk
  have hlt := mem_rangeList_lt hidx
  rw [ForeignKeyWalker.read?]
  simp only [Walker.walk]
  rw [List.getElem?_eq_getElem hlt]
  rfl

/-- C2: for every table walker whose id is in range for its schema, every
traversal operation — `name`, `is_partition`, `namespace_id`, `namespace`,
`columns`, `indexes`, `foreign_keys`, `foreign_key_count`, `primary_key` — is
total: the `Option`-guarded reads all succeed, and every walker produced by a
child traversal points inside its child sequence, so the internal indexing
cannot go out of bounds. -/
theorem table_walker_traversals_total (t : TableWalker)
    (h : t.id < t.schema.tables.length) :
    t.name?.isSome = true ∧ t.is_partition?.isSome = true ∧
    t.namespace_id?.isSome = true ∧ t.namespace?.isSome = true ∧
    (∀ c ∈ t.columns, (TableColumnWalker.read? c).isSome = true) ∧
    (∀ ix ∈ t.indexes, (IndexWalker.read? ix).isSome = true) ∧
    (∀ fk ∈ t.foreign_keys, (ForeignKeyWalker.read? fk).isSome = true) ∧
    t.foreign_key_count = t.foreign_keys.length ∧
    (∀ pk, t.primary_key = some pk → (IndexWalker.read? pk).isSome = true) := by
  have htab : t.table?.isSome = true := by
    rw [TableWalker.table?, List.getElem?_eq_getElem h]
    rfl
  refine ⟨?_, ?_, ?_, ?_, ?_, ?_, ?_, ?_, ?_⟩
  · rw [TableWalker.name?, Option.isSome_map']
    exact htab
  · rw [TableWalker.is_partition?, Option.isSome_map']
    exact htab
  · rw [TableWalker.namespace_id?, Option.isSome_map']
    exact htab
  · rw [TableWalker.namespace?, Option.isSome_map']
    exact htab
  · exact fun c hc => mem_columns_read_isSome hc
  · exact fun ix hix => mem_indexes_read_isSome hix
  · exact fun fk hfk => mem_foreign_keys_read_isSome hfk
  · rw [TableWalker.foreign_key_count, TableWalker.foreign_keys, List.length_map]
  · intro pk hpk
    exact mem_indexes_read_isSome (List.mem_of_find?_eq_some hpk)

/-- C2 witness: totality instantiated at the `blocks` table of `exSelf`
(conjunct: the table's name read succeeds). -/
theorem table_walker_traversals_total_witness :
    (TableWalker.name? wSelf).isSome = true :=
  (table_walker_traversals_total wSelf (by decide)).1

/-- C4: in a schema whose child sequences (`table_columns`, `indexes`,
`foreign_keys`) are sorted by parent table id, the `columns`, `indexes` and
`foreign_keys` traversals of any table yield exactly the children whose parent
is that table, in child-sequence order (they equal the parent filter of the
child sequence), the traversed positions form one contiguous index range, and
`foreign_key_count` equals the number of the table's foreign keys. -/
theorem children_are_contiguous_parent_ranges (t : TableWalker)
    (hc : SortedByKey t.schema.table_columns (fun x => x.1))
    (hi : SortedByKey t.schema.indexes (fun ix => ix.table_id))
    (hf : SortedByKey t.schema.foreign_keys (fun fk => fk.constrained_table))
    (_ht : t.id < t.schema.tables.length) :
    t.columnsData = t.schema.table_columns.filter (fun x => x.1 == t.id) ∧
    t.indexesData = t.schema.indexes.filter (fun ix => ix.table_id == t.id) ∧
    t.foreignKeysData =
      t.schema.foreign_keys.filter (fun fk => fk.constrained_table == t.id) ∧
    t.foreign_key_count =
      (t.schema.foreign_keys.filter (fun fk => fk.constrained_table == t.id)).length ∧
    t.columns.map (fun c => c.id) = rangeList t.columns_range := by
  refine ⟨?_, ?_, ?_, ?_, ?_⟩
  · rw [columnsData_eq_sliceData]
    exact sliceData_eq_filter _ _ _ hc
  · rw [indexesData_eq_sliceData]
    exact sliceData_eq_filter _ _ _ hi
  · rw [foreignKeysData_eq_sliceData]
    exact sliceData_eq_filter _ _ _ hf
  · rw [← sliceData_eq_filter t.schema.foreign_keys t.id (fun fk => fk.constrained_table) hf]
    rw [sliceData_length]
    rw [TableWalker.foreign_key_count, rangeList, List.length_range']
    rfl
  · rw [TableWalker.columns, List.map_map]
    exact List.map_id _

/-- C4 witness: the contiguous-range property instantiated at the `posts`
table of `exTwo` (conjunct: the traversed columns are exactly the columns
whose parent is `posts`). -/
theorem children_are_contiguous_parent_ranges_witness :
    TableWalker.columnsData wPosts = exTwo.table_columns.filter (fun x => x.1 == 1) :=
  (children_are_contiguous_parent_ranges wPosts (by decide) (by decide) (by decide)
    (by decide)).1

/-- C5: for a table all of whose primary-key indexes coincide (the at-most-one
invariant), `primary_key` is `some` exactly when the table has a primary-key
index, the returned index is that unique index, and
`primary_key_columns_count` is the column count of the primary key when it
exists and 0 otherwise. -/
theorem primary_key_unique_spec (t : TableWalker)
    (huniq : ∀ i ∈ t.indexes, ∀ j ∈ t.indexes,
      IndexWalker.is_primary_key i = true → IndexWalker.is_primary_key j = true →
        i.id = j.id) :
    (t.primary_key.isSome = true ↔
      ∃ i ∈ t.indexes, IndexWalker.is_primary_key i = true) ∧
    (∀ pk, t.primary_key = some pk →
      pk ∈ t.indexes ∧ IndexWalker.is_primary_key pk = true ∧
      ∀ j ∈ t.indexes, IndexWalker.is_primary_key j = true → j.id = pk.id) ∧
    (∀ pk, t.primary_key = some pk →
      t.primary_key_columns_count = (IndexWalker.columns pk).length) ∧
    (t.primary_key = none → t.primary_key_columns_count = 0) := by
  refine ⟨?_, ?_, ?_, ?_⟩
  · rw [TableWalker.primary_key, List.find?_isSome]
  · intro pk hpk
    have hmem := List.mem_of_find?_eq_some hpk
    have hp := List.find?_some hpk
    exact ⟨hmem, hp, fun j hj hjp => huniq j hj pk hmem hjp hp⟩
  · intro pk hpk
    rw [TableWalker.primary_key_columns_count, TableWalker.primary_key_columns, hpk]
    rfl
  · intro hpk
    rw [TableWalker.primary_key_columns_count, TableWalker.primary_key_columns, hpk]
    rfl

/-- C5 witness: the primary-key specification instantiated at the `blocks`
table of `exSelf`, whose only index is its primary key. -/
theorem primary_key_unique_spec_witness :
    (TableWalker.primary_key wSelf).isSome = true ↔
      ∃ i ∈ TableWalker.indexes wSelf, IndexWalker.is_primary_key i = true :=
  (primary_key_unique_spec wSelf (by decide)).1

theorem single_column_pred_iff (fk : ForeignKeyWalker) (c : Nat) :
    ((match ForeignKeyWalker.columns fk with
      | [col] => col.constrained_column == c
      | _ => false) = true) ↔
      ∃ col, ForeignKeyWalker.columns fk = [col] ∧ col.constrained_column = c := by
  cases hc : ForeignKeyWalker.columns fk with
  | nil => simp
  | cons a tl =>
    cases tl with
    | nil =>
      simp only [beq_iff_eq]
      constructor
      · intro h
        exact ⟨a, rfl, h⟩
      · rintro ⟨col, hcol, h⟩
        obtain rfl : a = col := by injection hcol
        exact h
    | cons b tl2 =>
      simp only [Bool.false_eq_true, false_iff]
      rintro ⟨col, hcol, _⟩
      exact absurd hcol (by simp)

/-- C9: `foreign_key_for_column(t, c)` is `some fk` exactly when the table's
foreign-key traversal contains a foreign key constraining exactly the single
column `c`; a returned foreign key always has exactly one constrained column
(so a multi-column foreign key containing `c` is never returned), and the
result is `none` when no single-column foreign key on `c` exists. -/
theorem foreign_key_for_column_single_spec (t : TableWalker) (c : Nat) :
    ((t.foreign_key_for_column c).isSome = true ↔
      ∃ fk ∈ t.foreign_keys, ∃ col, ForeignKeyWalker.columns fk = [col] ∧
        col.constrained_column = c) ∧
    (∀ fk, t.foreign_key_for_column c = some fk →
      fk ∈ t.foreign_keys ∧ (ForeignKeyWalker.columns fk).length = 1 ∧
      ∃ col, ForeignKeyWalker.columns fk = [col] ∧ col.constrained_column = c) := by
  constructor
  · rw [TableWalker.foreign_key_for_column, List.find?_isSome]
    constructor
    · rintro ⟨fk, hmem, hp⟩
      exact ⟨fk, hmem, (single_column_pred_iff fk c).mp hp⟩
    · rintro ⟨fk, hmem, hp⟩
      exact ⟨fk, hmem, (single_column_pred_iff fk c).mpr hp⟩
  · intro fk hfk
    have hmem := List.mem_of_find?_eq_some hfk
    have hp := List.find?_some hfk
    obtain ⟨col, hcol, hcc⟩ := (single_column_pred_iff fk c).mp hp
    exact ⟨hmem, by rw [hcol]; rfl, col, hcol, hcc⟩

/-- C9 witness: the single-column foreign-key lookup instantiated at the
`blocks` table of `exSelf` and its column 1 (`src`). -/
theorem foreign_key_for_column_single_spec_witness :
    (TableWalker.foreign_key_for_column wSelf 1).isSome = true ↔
      ∃ fk ∈ TableWalker.foreign_keys wSelf, ∃ col,
        ForeignKeyWalker.columns fk = [col] ∧ col.constrained_column = 1 :=
  (foreign_key_for_column_single_spec wSelf 1).1

theorem filter_filterMap_comm {α β : Type} (g : α → Option β) (p : α → Bool) (q : β → Bool)
    (hsome : ∀ a b, g a = some b → p a = q b) (hnone : ∀ a, g a = none → p a = false) :
    ∀ l : List α, (l.filter p).filterMap g = (l.filterMap g).filter q
  | [] => rfl
  | a :: l => by
    have ih := filter_filterMap_comm g p q hsome hnone l
    cases hg : g a with
    | none =>
      rw [List.filterMap_cons_none hg,
          List.filter_cons_of_neg (by rw [hnone a hg]; exact Bool.false_ne_true)]
      exact ih
    | some b =>
      have hpq := hsome a b hg
      cases hb : q b with
      | true =>
        rw [List.filterMap_cons_some hg,
            List.filter_cons_of_pos (by rw [hpq, hb]),
            List.filterMap_cons_some hg,
            List.filter_cons_of_pos (by rw [hb]), ih]
      | false =>
        rw [List.filterMap_cons_some hg,
            List.filter_cons_of_neg (by rw [hpq, hb]; exact Bool.false_ne_true),
            List.filter_cons_of_neg (by rw [hb]; exact Bool.false_ne_true)]
        exact ih

/-- C1 counterexample: in `exSelf` — a well-formed schema (foreign keys sorted
by constraining table, all constraining-table ids in range) with one table and
one self-referencing foreign key — `referencing_foreign_keys` of that table
yields nothing, while the schema has a foreign key referencing the table; so
the foreign key is not reported "regardless of which table constrains it". -/
theorem referencing_foreign_keys_counterexample :
    SortedByKey exSelf.foreign_keys (fun fk => fk.constrained_table) ∧
    (∀ fk ∈ exSelf.foreign_keys, fk.constrained_table < exSelf.tables.length) ∧
    TableWalker.referencingForeignKeysData wSelf = [] ∧
    exSelf.foreign_keys.filter (fun fk => fk.referenced_table == 0) =
      [{ constrained_table := 0, referenced_table := 0 }] := by
  refine ⟨?_, ?_, ?_, ?_⟩ <;> decide

/-- C1 (amended): for every table walker over a schema whose foreign-key
sequence is sorted by constraining table with all constraining-table ids in
range, `referencing_foreign_keys(t)` yields exactly the foreign keys of the
schema whose referenced table is `t` and whose constraining table is a table
other than `t` — foreign keys constrained on `t` itself (self-references) are
skipped by the scan over the other tables. -/
theorem referencing_foreign_keys_from_other_tables (t : TableWalker)
    (hs : SortedByKey t.schema.foreign_keys (fun fk => fk.constrained_table))
    (hin : ∀ fk ∈ t.schema.foreign_keys, fk.constrained_table < t.schema.tables.length) :
    t.referencingForeignKeysData =
      t.schema.foreign_keys.filter
        (fun fk => (fk.referenced_table == t.id) && (fk.constrained_table != t.id)) := by
  have hstep1 : t.schema.table_walkers.filter (fun t2 => t2.id != t.id)
      = ((List.range t.schema.tables.length).filter (fun j => j != t.id)).map
          (fun j => ({ schema := t.schema, id := j } : TableWalker)) := by
    rw [SqlSchema.table_walkers, List.filter_map]
    rfl
  rw [TableWalker.referencingForeignKeysData, TableWalker.referencing_foreign_keys,
      hstep1, List.flatMap_map]
  rw [filter_filterMap_comm ForeignKeyWalker.read?
        (fun fk => ForeignKeyWalker.referenced_table_id? fk == some t.id)
        (fun fk => fk.referenced_table == t.id)
        (fun a b hg => by
          beta_reduce; simp only [ForeignKeyWalker.referenced_table_id?, hg]; rfl)
        (fun a hg => by
          beta_reduce; simp only [ForeignKeyWalker.referenced_table_id?, hg]; rfl)]
  rw [List.filterMap_flatMap]
  have hpt : ∀ j : Nat,
      (TableWalker.foreign_keys { schema := t.schema, id := j }).filterMap
          ForeignKeyWalker.read?
        = t.schema.foreign_keys.filter (fun fk => fk.constrained_table == j) := by
    intro j
    have h1 : (TableWalker.foreign_keys { schema := t.schema, id := j }).filterMap
        ForeignKeyWalker.read?
        = TableWalker.foreignKeysData { schema := t.schema, id := j } := rfl
    rw [h1, foreignKeysData_eq_sliceData]
    exact sliceData_eq_filter _ _ _ hs
  simp only [hpt]
  rw [List.filter_flatMap]
  have hcomm : ∀ j : Nat,
      (t.schema.foreign_keys.filter (fun fk => fk.constrained_table == j)).filter
          (fun fk => fk.referenced_table == t.id)
        = (t.schema.foreign_keys.filter (fun fk => fk.referenced_table == t.id)).filter
          (fun fk => fk.constrained_table == j) := by
    intro j
    rw [List.filter_filter, List.filter_filter]
    exact List.filter_congr (fun a _ => Bool.and_comm _ _)
  simp only [hcomm]
  rw [flatMap_range_filter (fun fk => fk.constrained_table) t.id t.schema.tables.length
        (t.schema.foreign_keys.filter (fun fk => fk.referenced_table == t.id))
        (hs.filter _)]
  rw [List.filter_filter]
  apply List.filter_congr
  intro fk hfk
  have hlt : fk.constrained_table < t.schema.tables.length := hin fk hfk
  have hd : decide (fk.constrained_table < t.schema.tables.length) = true := by
    simp [hlt]
  rw [hd, Bool.true_and]
  exact Bool.and_comm _ _

/-- C1 witness: the amended specification instantiated at table `users` of
`exTwo`, which is referenced by the foreign key constrained on `posts`. -/
theorem referencing_foreign_keys_from_other_tables_witness :
    TableWalker.referencingForeignKeysData wUsers =
      exTwo.foreign_keys.filter
        (fun fk => (fk.referenced_table == 0) && (fk.constrained_table != 0)) :=
  referencing_foreign_keys_from_other_tables wUsers (by decide) (by decide)

end SchemaModel

namespace Inferrer

/-- C6: for every pair of schemas, running `infer(current, desired)` twice
produces structurally identical step sequences — the inferrer is a pure
function of its two inputs. -/
theorem infer_deterministic (current desired : SchemaModel.SqlSchema) :
    infer current desired = infer current desired := rfl

/-- C6 witness: determinism instantiated at the two example schemas. -/
theorem infer_deterministic_witness :
    infer SchemaModel.exTwo SchemaModel.exSelf = infer SchemaModel.exTwo SchemaModel.exSelf :=
  infer_deterministic SchemaModel.exTwo SchemaModel.exSelf

end Inferrer

namespace WriteInterp

/-- C7: for every transaction behaviour and write query, `execute` on the four
stub kinds (`ConnectRecords`, `DisconnectRecords`, `SetRecords`, `ResetData`)
reaches the `unimplemented!()` placeholder with no transaction operation
invoked, while the five remaining kinds dispatch exactly one operation to the
connector and never panic. -/
theorem execute_stubs_panic_without_tx (tx : Tx) (q : WriteQuery) :
    (isStub q = true → execute tx q = ExecOutcome.panicked []) ∧
    (isStub q = false →
      ∃ op, dispatchOp q = some op ∧ (execute tx q).ops = [op] ∧
        ∀ ops, execute tx q ≠ ExecOutcome.panicked ops) := by
  cases q with
  | CreateRecord q =>
    refine ⟨fun h => by simp [isStub] at h, fun _ => ?_⟩
    refine ⟨TxOp.create_record q.model q.non_list_args q.list_args, rfl, ?_, ?_⟩
    · cases h : tx (TxOp.create_record q.model q.non_list_args q.list_args) <;>
        simp [execute, h, ExecOutcome.ops]
    · intro ops
      cases h : tx (TxOp.create_record q.model q.non_list_args q.list_args) <;>
        simp [execute, h]
  | UpdateRecord q =>
    refine ⟨fun h => by simp [isStub] at h, fun _ => ?_⟩
    refine ⟨TxOp.update_records q.model q.where_ q.non_list_args q.list_args, rfl, ?_, ?_⟩
    · cases h : tx (TxOp.update_records q.model q.where_ q.non_list_args q.list_args) <;>
        simp [execute, h, ExecOutcome.ops]
    · intro ops
      cases h : tx (TxOp.update_records q.model q.where_ q.non_list_args q.list_args) <;>
        simp [execute, h]
  | DeleteRecord q =>
    refine ⟨fun h => by simp [isStub] at h, fun _ => ?_⟩
    refine ⟨TxOp.delete_records q.model q.where_, rfl, ?_, ?_⟩
    · cases h : tx (TxOp.delete_records q.model q.where_) <;>
        simp [execute, h, ExecOutcome.ops]
    · intro ops
      cases h : tx (TxOp.delete_records q.model q.where_) <;>
        simp [execute, h]
  | UpdateManyRecords q =>
    refine ⟨fun h => by simp [isStub] at h, fun _ => ?_⟩
    refine ⟨TxOp.update_records q.model q.filter q.non_list_args q.list_args, rfl, ?_, ?_⟩
    · cases h : tx (TxOp.update_records q.model q.filter q.non_list_args q.list_args) <;>
        simp [execute, h, ExecOutcome.ops]
    · intro ops
      cases h : tx (TxOp.update_records q.model q.filter q.non_list_args q.list_args) <;>
        simp [execute, h]
  | DeleteManyRecords q =>
    refine ⟨fun h => by simp [isStub] at h, fun _ => ?_⟩
    refine ⟨TxOp.delete_records q.model q.filter, rfl, ?_, ?_⟩
    · cases h : tx (TxOp.delete_records q.model q.filter) <;>
        simp [execute, h, ExecOutcome.ops]
    · intro ops
      cases h : tx (TxOp.delete_records q.model q.filter) <;>
        simp [execute, h]
  | ConnectRecords q => exact ⟨fun _ => rfl, fun h => by simp [isStub] at h⟩
  | DisconnectRecords q => exact ⟨fun _ => rfl, fun h => by simp [isStub] at h⟩
  | SetRecords q => exact ⟨fun _ => rfl, fun h => by simp [isStub] at h⟩
  | ResetData q => exact ⟨fun _ => rfl, fun h => by simp [isStub] at h⟩

/-- C7 witness: a `ConnectRecords` query panics with no transaction operation,
for a connector that would answer every operation. -/
theorem execute_stubs_panic_without_tx_witness :
    execute (fun _ => Except.ok 0) (WriteQuery.ConnectRecords { model := "m" }) =
      ExecOutcome.panicked [] :=
  (execute_stubs_panic_without_tx (fun _ => Except.ok 0)
    (WriteQuery.ConnectRecords { model := "m" })).1 rfl

end WriteInterp

namespace Introspection

/-- The source's warning test: `![5, 6].contains(&w.code)`. -/
theorem warning_code_test (w : Warning) :
    (!([5, 6].contains w.code)) = true ↔ w.code ≠ 5 ∧ w.code ≠ 6 := by
  simp [List.contains]

/-- C10 counterexample: `calculate` can succeed with a `NonPrisma` version even
though no generated warning has a code outside {5, 6} — it suffices that the
context's recorded version is already `NonPrisma` — so "`NonPrisma` only if
some warning has a code different from 5 and 6" fails. -/
theorem calculate_version_counterexample :
    calculate (fun _ => Except.ok ("", true)) (fun _ => [])
        { version := Version.NonPrisma } =
      Except.ok { data_model := "", is_empty := true,
                  version := Version.NonPrisma, warnings := [] } ∧
    (([] : List Warning).any (fun w => !([5, 6].contains w.code))) = false :=
  ⟨rfl, rfl⟩

/-- C10 (amended): whenever `calculate` succeeds, the result's warnings are the
generated warnings, and its version is `NonPrisma` if some generated warning
has a code different from 5 and from 6, and is otherwise the context's
recorded version (which may itself be `NonPrisma`). -/
theorem calculate_version_spec (f : CalcContext → Except String (String × Bool))
    (g : CalcContext → List Warning) (ctx : CalcContext) (r : IntrospectionResult)
    (h : calculate f g ctx = Except.ok r) :
    r.warnings = g ctx ∧
    r.version = (if (g ctx).any (fun w => !([5, 6].contains w.code))
      then Version.NonPrisma else ctx.version) ∧
    ((∃ w ∈ g ctx, w.code ≠ 5 ∧ w.code ≠ 6) → r.version = Version.NonPrisma) ∧
    ((∀ w ∈ g ctx, w.code = 5 ∨ w.code = 6) → r.version = ctx.version) := by
  unfold calculate at h
  cases hf : f ctx with
  | error e => rw [hf] at h; exact absurd h (by simp)
  | ok v =>
    rw [hf] at h
    obtain ⟨s, b⟩ := v
    simp only [Except.ok.injEq] at h
    subst h
    refine ⟨rfl, rfl, ?_, ?_⟩
    · rintro ⟨w, hw, h5, h6⟩
      have : (g ctx).any (fun w => !([5, 6].contains w.code)) = true := by
        rw [List.any_eq_true]
        exact ⟨w, hw, (warning_code_test w).mpr ⟨h5, h6⟩⟩
      exact if_pos this
    · intro hall
      have : (g ctx).any (fun w => !([5, 6].contains w.code)) = false := by
        rw [List.any_eq_false]
        intro w hw
        intro hc
        rcases hall w hw with h5 | h6
        · exact ((warning_code_test w).mp hc).1 h5
        · exact ((warning_code_test w).mp hc).2 h6
      exact if_neg (by rw [this]; exact Bool.false_ne_true)

/-- C10 witness: a warning with code 7 forces the `NonPrisma` version for a
context recorded as `Prisma2`. -/
theorem calculate_version_spec_witness :
    ({ data_model := "m", is_empty := false, version := Version.NonPrisma,
       warnings := [{ code := 7, message := "w" }] } : IntrospectionResult).version =
      (if (([{ code := 7, message := "w" }] : List Warning)).any
          (fun w => !([5, 6].contains w.code))
        then Version.NonPrisma else Version.Prisma2) :=
  (calculate_version_spec (fun _ => Except.ok ("m", false))
    (fun _ => [{ code := 7, message := "w" }]) { version := Version.Prisma2 }
    { data_model := "m", is_empty := false, version := Version.NonPrisma,
      warnings := [{ code := 7, message := "w" }] } rfl).2.1

end Introspection
